import Mathlib

/-!
Verification of the InfraLink network-link manager (src/infralink.py).

The Python program is shallowly embedded here.  Python strings are modelled
as lists of characters (`Str`), so that every operation is structurally
recursive and kernel-computable.  Absent cell values (pandas `NA`) are
modelled with `Option`.  A Python value that may or may not be a string
(the argument of `extract_match_part`) is modelled by `PyVal`, which carries
the `str()` representation in the non-string case.
-/

namespace InfraLink

/-- A Python string, modelled as its list of characters. -/
abbrev Str := List Char

/-- Characters of a Lean string literal, used to write concrete `Str` values. -/
def strOf (s : String) : Str := s.data

/-- ASCII whitespace recognised by `str.strip()` (the cases relevant here). -/
def isSpaceChar (c : Char) : Bool :=
  c = ' ' || c = '\t' || c = '\n' || c = '\r'

/-- Python `s.strip()`: remove leading and trailing whitespace. -/
def pyStrip (s : Str) : Str :=
  ((s.dropWhile isSpaceChar).reverse.dropWhile isSpaceChar).reverse

/-- Python `s.lower()` on ASCII letters. -/
def pyLower (s : Str) : Str :=
  s.map fun c => if 65 ≤ c.val.toNat ∧ c.val.toNat ≤ 90 then Char.ofNat (c.val.toNat + 32) else c

/-- Python `s.startswith(p)`. -/
def pyStartsWith (s p : Str) : Bool := p.isPrefixOf s

/-- Python `s.split('_')`: split on every underscore, keeping empty pieces. -/
def pySplitUnderscore : Str → List Str
  | [] => [[]]
  | c :: cs =>
    let rest := pySplitUnderscore cs
    if c = '_' then [] :: rest
    else
      match rest with
      | [] => [[c]]
      | p :: ps => (c :: p) :: ps

/-- Python `'_'.join(parts)`. -/
def joinUnderscore : List Str → Str
  | [] => []
  | [p] => p
  | p :: ps => p ++ '_' :: joinUnderscore ps

/-- Python string `<`: lexicographic comparison by code point. -/
def strLt : Str → Str → Bool
  | _, [] => false
  | [], _ :: _ => true
  | c :: cs, d :: ds => if c < d then true else if d < c then false else strLt cs ds

/-- Python string `<=`, derived from `strLt`. -/
def strLe (a b : Str) : Bool := ! strLt b a

/-- A Python value that is either a genuine string or a non-string object;
the latter carries the characters of its `str()` representation. -/
inductive PyVal where
  | str : Str → PyVal
  | nonstr : Str → PyVal
deriving DecidableEq

/-- Python `str(x)`. -/
def pyStrVal : PyVal → Str
  | .str s => s
  | .nonstr r => r

/-- The underscore token rules of the extractor, applied to a genuine string:
one token gives the token itself, exactly two tokens give the second, three or
more tokens give the last two rejoined with an underscore. -/
def extract_match_part_str (s : Str) : Str :=
  let parts := pySplitUnderscore s
  if parts.length = 2 then parts.getD 1 []
  else if 2 < parts.length then joinUnderscore (parts.drop (parts.length - 2))
  else s

/-- Embedding of `extract_match_part` (src/infralink.py lines 8-23).  A
non-string argument returns `str(device_name)` at once; a string argument
goes through the underscore rules. -/
def extract_match_part (device_name : PyVal) : Str :=
  match device_name with
  | .nonstr r => r
  | .str s => extract_match_part_str s

/-- A link key: the pair of match tokens, lexicographically sorted. -/
abbrev Key := Str × Str

/-- Embedding of `normalize_link` (src/infralink.py lines 25-29):
`tuple(sorted([extract(str(source).strip()), extract(str(destination).strip())]))`. -/
def normalize_link (source destination : PyVal) : Key :=
  let src_match := extract_match_part (.str (pyStrip (pyStrVal source)))
  let dst_match := extract_match_part (.str (pyStrip (pyStrVal destination)))
  if strLe src_match dst_match then (src_match, dst_match) else (dst_match, src_match)

/-! ## Rows, priority scores, and the Directional Duplicate Resolver -/

/-- One link record: the four required columns plus the optional `Link ID`.
Absent cells (pandas `NA`) are `none`. -/
structure Row where
  source : Str
  sourcePort : Option Str
  destination : Str
  destinationPort : Option Str
  linkId : Option Str
deriving DecidableEq

/-- Python `str(x)` on a possibly absent cell: pandas renders `NA` as `"<NA>"`. -/
def pdStr : Option Str → Str
  | none => strOf "<NA>"
  | some s => s

/-- Embedding of `port_priority_score` (src/infralink.py lines 72-82):
absent gives 0, an `eth` prefix 3, an `ae` prefix 2, anything else 1,
case-insensitively. -/
def port_priority_score (port : Option Str) : Nat :=
  match port with
  | none => 0
  | some p =>
    let port_str := pyLower p
    if pyStartsWith port_str (strOf "eth") then 3
    else if pyStartsWith port_str (strOf "ae") then 2
    else 1

/-- The `Total Priority` column (line 106): source score plus destination score. -/
def total_priority (r : Row) : Nat :=
  port_priority_score r.sourcePort + port_priority_score r.destinationPort

/-- The `Normalized` column (line 101): the link key of a row. -/
def rowKey (r : Row) : Key := normalize_link (.str r.source) (.str r.destination)

/-- A row tagged with its 0-based original dataset position. -/
abbrev TRow := Nat × Row

/-- Tag each row of a dataset with its position, starting at `n`. -/
def tagFrom : Nat → List Row → List TRow
  | _, [] => []
  | n, r :: rs => (n, r) :: tagFrom (n + 1) rs

/-- Link key of a tagged row. -/
def keyT (t : TRow) : Key := rowKey t.2

/-- Total priority of a tagged row. -/
def prioT (t : TRow) : Nat := total_priority t.2

/-- Insertion into a list kept weakly descending in `Total Priority`. -/
def insertDesc (t : TRow) : List TRow → List TRow
  | [] => [t]
  | u :: us => if prioT t < prioT u then u :: insertDesc t us else t :: u :: us

/-- One concrete descending permutation (an insertion sort) standing in for
`df.sort_values('Total Priority', ascending=False)` (line 109).  The pandas
default quicksort leaves the relative order of equal priorities unspecified,
so every statement that could depend on the tie order is instead quantified
over all weakly descending permutations (`SortsByPriorityDesc`), of which
this function produces one. -/
def sortDesc : List TRow → List TRow
  | [] => []
  | t :: ts => insertDesc t (sortDesc ts)

/-- Embedding of `df.drop_duplicates(subset=['Normalized'], keep='first')` (line 110):
keep a row when its key has not been seen before. -/
def dropDupFirst (seen : List Key) : List TRow → List TRow
  | [] => []
  | t :: ts =>
    if keyT t ∈ seen then dropDupFirst seen ts
    else t :: dropDupFirst (keyT t :: seen) ts

/-- Embedding of `df[df.duplicated(subset=['Normalized'], keep='first')]` (line 111):
keep a row when its key has been seen before. -/
def keepDupFirst (seen : List Key) : List TRow → List TRow
  | [] => []
  | t :: ts =>
    if keyT t ∈ seen then t :: keepDupFirst seen ts
    else keepDupFirst (keyT t :: seen) ts

/-- Embedding of `remove_duplicate_links_with_priority` (lines 98-117):
sort by descending total priority, then split into the first row of each
key (cleaned) and the remaining rows (duplicates). -/
def remove_duplicate_links_with_priority (df : List Row) : List TRow × List TRow :=
  let s := sortDesc (tagFrom 0 df)
  (dropDupFirst [] s, keepDupFirst [] s)

/-- The LinkGroup of key `k`: all rows of the dataset whose key is `k`,
tagged with their original positions. -/
def link_group (df : List Row) (k : Key) : List TRow :=
  (tagFrom 0 df).filter fun t => keyT t = k

/-- Any output that `df.sort_values('Total Priority', ascending=False)`
(line 109) may produce from `df`: a permutation of the position-tagged rows
that is weakly descending in Total Priority.  The pandas default quicksort
documents no tie order, so properties of the descending sort are stated for
every such permutation. -/
abbrev SortsByPriorityDesc (df : List Row) (s : List TRow) : Prop :=
  s.Perm (tagFrom 0 df) ∧ s.Pairwise fun a b => prioT b ≤ prioT a

/-- The duplicate split applied to an already priority-sorted tagged dataset
(lines 110-111): the first row of each key is kept, the remaining rows are
duplicates; `remove_duplicate_links_with_priority` is this split after one
concrete sort. -/
def remove_duplicates_sorted (s : List TRow) : List TRow × List TRow :=
  (dropDupFirst [] s, keepDupFirst [] s)

/-- C1 tie row at position 0, Total Priority 2. -/
def c1tieA : Row := ⟨strOf "R1", some (strOf "Gi1"), strOf "R2", some (strOf "Gi2"), none⟩

/-- C1 tie row at position 1, same LinkGroup, same Total Priority 2. -/
def c1tieB : Row := ⟨strOf "R1", some (strOf "Gi3"), strOf "R2", some (strOf "Gi4"), none⟩

/-- The two-row tie dataset for the C1 counterexample. -/
def c1tiedf : List Row := [c1tieA, c1tieB]

/-- A weakly descending order of the tie dataset that the unstable sort may
produce: the later row first. -/
def c1tiesort : List TRow := [(1, c1tieB), (0, c1tieA)]

/-- Dataset for the C1 witness: one LinkGroup of three rows with Total
Priority values 3, 1, 2 in original order, the example of the specification. -/
def c1row1 : Row := ⟨strOf "R1", some (strOf "Eth1"), strOf "R2", none, none⟩

/-- Second witness row, Total Priority 1. -/
def c1row2 : Row := ⟨strOf "R1", some (strOf "Gi1"), strOf "R2", none, none⟩

/-- Third witness row, Total Priority 2. -/
def c1row3 : Row := ⟨strOf "R1", some (strOf "ae1"), strOf "R2", none, none⟩

/-- The C1 witness dataset. -/
def c1df : List Row := [c1row1, c1row2, c1row3]

/-! ## Key order, the dataset sort by link key, preferred ports, and the
Duplicate Port Detector -/

/-- Python tuple `<` on link keys: lexicographic over the two strings. -/
def keyLt (a b : Key) : Bool :=
  strLt a.1 b.1 || (a.1 = b.1 && strLt a.2 b.2)

/-- Stable insertion into a list of rows sorted by ascending link key. -/
def insertAscKey (r : Row) : List Row → List Row
  | [] => [r]
  | u :: us => if keyLt (rowKey u) (rowKey r) then u :: insertAscKey r us else r :: u :: us

/-- One concrete ascending permutation (an insertion sort) standing in for
`df.sort_values(by=['Normalized'])` (src/infralink.py line 248).  The pandas
default quicksort leaves the relative order of rows with equal keys
unspecified; the Port Correction Analyzer, whose output can depend on that
order, is therefore quantified over all weakly ascending permutations
(`SortsByKeyAsc`), while the remaining uses depend only on the multiset of
rows. -/
def sort_by_normalized : List Row → List Row
  | [] => []
  | r :: rs => insertAscKey r (sort_by_normalized rs)

/-- Test `startswith('eth')` on the lower-cased string form of a port cell
(an absent cell prints as `<NA>` and so matches neither prefix). -/
def isEthPort (p : Option Str) : Bool := pyStartsWith (pyLower (pdStr p)) (strOf "eth")

/-- Test `startswith('ae')` on the lower-cased string form of a port cell. -/
def isAePort (p : Option Str) : Bool := pyStartsWith (pyLower (pdStr p)) (strOf "ae")

/-- Embedding of `get_preferred_ports` (src/infralink.py lines 49-70): filter
the dataset on the device pair in either direction, then pick, independently
for the source and destination port columns, the first `eth`-prefixed value,
else the first `ae`-prefixed value, else the first row's value.  The outer
`Option` distinguishes the Python `None` returned when no row matches
(line 55) from a returned column cell, which may itself be an absent `pd.NA`
cell (inner `none`). -/
def get_preferred_ports (df : List Row) (source destination : Str) :
    Option (Option Str) × Option (Option Str) :=
  let f0 := df.filter fun r => r.source = source ∧ r.destination = destination
  let filtered :=
    if f0.isEmpty then df.filter fun r => r.source = destination ∧ r.destination = source
    else f0
  match filtered with
  | [] => (none, none)
  | r0 :: rest =>
    let eth_source := (r0 :: rest).filter fun r => isEthPort r.sourcePort
    let eth_dest := (r0 :: rest).filter fun r => isEthPort r.destinationPort
    let eth_source2 :=
      if eth_source.isEmpty then (r0 :: rest).filter fun r => isAePort r.sourcePort
      else eth_source
    let eth_dest2 :=
      if eth_dest.isEmpty then (r0 :: rest).filter fun r => isAePort r.destinationPort
      else eth_dest
    let source_port := match eth_source2 with
      | s :: _ => s.sourcePort
      | [] => r0.sourcePort
    let dest_port := match eth_dest2 with
      | d :: _ => d.destinationPort
      | [] => r0.destinationPort
    (some source_port, some dest_port)

/-- The `Source+Port` composite key (line 87): trimmed source device,
underscore, trimmed string form of the source port. -/
def sourcePortKey (r : Row) : Str :=
  pyStrip r.source ++ '_' :: pyStrip (pdStr r.sourcePort)

/-- The `Dest+Port` composite key (line 88). -/
def destPortKey (r : Row) : Str :=
  pyStrip r.destination ++ '_' :: pyStrip (pdStr r.destinationPort)

/-- Occurrences of a composite key in a list of composite keys
(`value_counts` followed by `map`, lines 90-94). -/
def countKeyOcc (ks : List Str) (k : Str) : Nat := (ks.filter fun x => x = k).length

/-- The `Source Port Duplicate` flag of a row (line 93): its source-side
composite key occurs more than once in the dataset. -/
def source_port_duplicate (df : List Row) (r : Row) : Bool :=
  1 < countKeyOcc (df.map sourcePortKey) (sourcePortKey r)

/-- The `Destination Port Duplicate` flag of a row (line 94). -/
def destination_port_duplicate (df : List Row) (r : Row) : Bool :=
  1 < countKeyOcc (df.map destPortKey) (destPortKey r)

/-- Embedding of `find_duplicate_ports` (lines 84-96): the rows with at
least one duplicate flag set, each annotated with both boolean flags. -/
def find_duplicate_ports (df : List Row) : List (Row × Bool × Bool) :=
  df.filterMap fun r =>
    let sdup := source_port_duplicate df r
    let ddup := destination_port_duplicate df r
    if sdup || ddup then some (r, sdup, ddup) else none

/-- Row with device `A_B` and source port `C`: composite key `A_B_C`. -/
def c10rowA : Row := ⟨strOf "A_B", some (strOf "C"), strOf "X1", some (strOf "p1"), none⟩

/-- Row with device `A` and source port `B_C`: the same composite key `A_B_C`. -/
def c10rowB : Row := ⟨strOf "A", some (strOf "B_C"), strOf "X2", some (strOf "p2"), none⟩

/-- The two-row dataset on which the composite keys collide. -/
def c10df : List Row := [c10rowA, c10rowB]

/-! ## The Cross-Dataset Matcher (Panel 1 Main Analysis, lines 251-321) -/

/-- One record of the Main Analysis output. -/
structure AnalysisRecord where
  linkName : Str
  source : Str
  origSourcePort : Option Str
  destination : Str
  origDestinationPort : Option Str
  matchStatus : Str
  normalizedLink : Key
deriving DecidableEq

/-- Python `f"{src} to {dst}"`. -/
def linkNameOf (src dst : Str) : Str := src ++ strOf " to " ++ dst

/-- The loop body of the Main Analysis for one normalized key: take the
subset of rows of the (key-sorted) main dataset with that key, skip it if
empty, otherwise build one record from its first row, with Match Status
`Found` exactly when the key occurs among the match dataset's keys. -/
def analysis_for_key (mainS match_df : List Row) (k : Key) : List AnalysisRecord :=
  match mainS.filter (fun r => rowKey r = k) with
  | [] => []
  | original :: _ =>
    [{ linkName := linkNameOf original.source original.destination
       source := original.source
       origSourcePort := original.sourcePort
       destination := original.destination
       origDestinationPort := original.destinationPort
       matchStatus :=
         if k ∈ (sort_by_normalized match_df).map rowKey then strOf "Found"
         else strOf "Missing"
       normalizedLink := k }]

/-- Embedding of the Main Analysis loop (lines 251-321).  `all_links` is the
Python set of normalized keys of the main dataset; iterating a Python set
yields its elements in an unspecified order, here the parameter `order`. -/
def analysis_results (main_df match_df : List Row) (order : List Key) :
    List AnalysisRecord :=
  order.flatMap (analysis_for_key (sort_by_normalized main_df) match_df)

/-- A possible iteration order of the Python set `all_links`: some
permutation of the distinct normalized keys of the main dataset. -/
abbrev ValidOrder (main_df : List Row) (order : List Key) : Prop :=
  order.Perm (main_df.map rowKey).dedup

/-- Witness row for C4. -/
def c4row : Row := ⟨strOf "W1", some (strOf "p"), strOf "W2", some (strOf "q"), none⟩

/-! ## C5: ordering of the Main Analysis output -/

/-- Whether a list of keys is in ascending (lexicographic, weak) order. -/
def keysSortedAsc : List Key → Bool
  | [] => true
  | [_] => true
  | a :: b :: rest => !keyLt b a && keysSortedAsc (b :: rest)

/-- First C5 row, with the lexicographically smaller key. -/
def c5rowX : Row := ⟨strOf "X1", some (strOf "p"), strOf "X2", some (strOf "q"), none⟩

/-- Second C5 row, with the lexicographically larger key. -/
def c5rowY : Row := ⟨strOf "Y1", some (strOf "p"), strOf "Y2", some (strOf "q"), none⟩

/-- The C5 dataset of two rows with distinct keys. -/
def c5main : List Row := [c5rowX, c5rowY]

/-- A valid iteration order of the key set of `c5main` that lists the larger
key first. -/
def c5order : List Key := [rowKey c5rowY, rowKey c5rowX]

/-! ## The Port Correction Analyzer (Panel 1, lines 258-294) -/

/-- One record of the Port Corrections output. -/
structure CorrectionRecord where
  linkName : Str
  source : Str
  origSourcePort : Str
  corrSourcePort : Str
  destination : Str
  origDestinationPort : Str
  corrDestinationPort : Str
  priorityApplied : Bool
  issue : Str
deriving DecidableEq

/-- Embedding of `str(corr).strip() if corr else 'N/A'` (lines 277-278)
under Python truthiness: `None` (returned when no row matched) and the empty
string are falsy and give `"N/A"`; any other string is trimmed; an absent
`pd.NA` cell raises `TypeError: boolean value of NA is ambiguous`, which is
the error case. -/
def renderCorrE : Option (Option Str) → Except Str Str
  | none => .ok (strOf "N/A")
  | some none => .error (strOf "boolean value of NA is ambiguous")
  | some (some p) => .ok (if p = [] then strOf "N/A" else pyStrip p)

/-- Stable insertion into an ascending list of keys. -/
def insertKeyAsc (k : Key) : List Key → List Key
  | [] => [k]
  | u :: us => if keyLt u k then u :: insertKeyAsc k us else k :: u :: us

/-- The ascending key order in which `groupby('Normalized')` iterates its
groups. -/
def sortKeysAsc : List Key → List Key
  | [] => []
  | k :: ks => insertKeyAsc k (sortKeysAsc ks)

/-- The representative row of the group of key `k` in an already key-sorted
dataset `s`: the group's first row (`group.iloc[0]`, line 269). -/
def group_sample (s : List Row) (k : Key) : Row :=
  match s.filter (fun r => rowKey r = k) with
  | [] => ⟨[], none, [], none, none⟩
  | sample :: _ => sample

/-- The raw corrected port pair of the group of key `k` (lines 269-271): the
Preferred Port Resolver applied to the key-sorted dataset with the
representative row's device pair. -/
def corrected_raw (s : List Row) (k : Key) :
    Option (Option Str) × Option (Option Str) :=
  get_preferred_ports s (group_sample s k).source (group_sample s k).destination

/-- Any output that `sort_values(by=['Normalized'])` (line 248) may produce
from `df`: a permutation of the rows that is weakly ascending in the link
key; the pandas default quicksort leaves the relative order of rows with
equal keys unspecified. -/
abbrev SortsByKeyAsc (df s : List Row) : Prop :=
  s.Perm df ∧ s.Pairwise fun a b => keyLt (rowKey b) (rowKey a) = false

/-- The correction record built for one row of a multi-row group
(lines 281-294). -/
def mkCorrectionRecord (sample : Row) (cs cd : Str) (r : Row) : CorrectionRecord :=
  { linkName := linkNameOf sample.source sample.destination
    source := sample.source
    origSourcePort := pyStrip (pdStr r.sourcePort)
    corrSourcePort := cs
    destination := sample.destination
    origDestinationPort := pyStrip (pdStr r.destinationPort)
    corrDestinationPort := cd
    priorityApplied :=
      (pyStartsWith (pyLower cs) (strOf "eth") || pyStartsWith (pyLower cs) (strOf "ae"))
      || (pyStartsWith (pyLower cd) (strOf "eth") || pyStartsWith (pyLower cd) (strOf "ae"))
    issue := strOf "Port Mismatch" }

/-- The port-correction loop (lines 261-294) over the listed group keys of
the key-sorted dataset `s`: groups of a single row are skipped; in a
multi-row group the corrected pair is rendered — raising on an absent cell,
which aborts the whole loop with no records — and every row whose trimmed
literal port strings differ from it yields one record. -/
def port_corrections_go (s : List Row) : List Key → Except Str (List CorrectionRecord)
  | [] => .ok []
  | k :: ks =>
    if 1 < (s.filter fun r => rowKey r = k).length then
      match renderCorrE (corrected_raw s k).1 with
      | .error e => .error e
      | .ok cs =>
        match renderCorrE (corrected_raw s k).2 with
        | .error e => .error e
        | .ok cd =>
          match port_corrections_go s ks with
          | .error e => .error e
          | .ok rest =>
            .ok (((s.filter fun r => rowKey r = k).filterMap fun r =>
              if pyStrip (pdStr r.sourcePort) ≠ cs
                  ∨ pyStrip (pdStr r.destinationPort) ≠ cd
              then some (mkCorrectionRecord (group_sample s k) cs cd r)
              else none) ++ rest)
    else port_corrections_go s ks

/-- Embedding of the Port Correction Analyzer (lines 258-294) on an already
key-sorted dataset `s`: iterate its LinkGroups in ascending key order
(`groupby('Normalized')`); the result is the list of correction records, or
the `TypeError` that aborts the whole analysis when a truthiness test meets
an absent corrected port cell. -/
def port_corrections (s : List Row) : Except Str (List CorrectionRecord) :=
  port_corrections_go s (sortKeysAsc (s.map rowKey).dedup)

/-- Decidable equality of `Except` values, by cases on the constructors. -/
instance exceptDecidableEq {e a : Type} [DecidableEq e] [DecidableEq a] :
    DecidableEq (Except e a) := fun x y =>
  match x, y with
  | .ok v, .ok w =>
    if h : v = w then isTrue (by rw [h]) else isFalse fun hc => h (Except.ok.inj hc)
  | .error v, .error w =>
    if h : v = w then isTrue (by rw [h]) else isFalse fun hc => h (Except.error.inj hc)
  | .ok _, .error _ => isFalse fun hc => Except.noConfusion hc
  | .error _, .ok _ => isFalse fun hc => Except.noConfusion hc

/-- C6 counterexample row at position 0: absent source port. -/
def c6narow1 : Row := ⟨strOf "R1", none, strOf "R2", some (strOf "Gi1"), none⟩

/-- C6 counterexample row at position 1: same LinkGroup, absent source port. -/
def c6narow2 : Row := ⟨strOf "R1", none, strOf "R2", some (strOf "Gi2"), none⟩

/-- The C6 counterexample dataset: one duplicated LinkGroup whose corrected
source port is an absent cell. -/
def c6nadf : List Row := [c6narow1, c6narow2]

/-- C6 witness row at position 0: ports `Eth1` and `Gi1`. -/
def c6okrow1 : Row :=
  ⟨strOf "R1", some (strOf "Eth1"), strOf "R2", some (strOf "Gi1"), none⟩

/-- C6 witness row at position 1: ports `ae1` and `Gi2`, differing from the
corrected pair. -/
def c6okrow2 : Row :=
  ⟨strOf "R1", some (strOf "ae1"), strOf "R2", some (strOf "Gi2"), none⟩

/-- The C6 witness dataset: one LinkGroup of two rows with present ports. -/
def c6okdf : List Row := [c6okrow1, c6okrow2]

/-- The correction records the analyzer produces on the C6 witness dataset:
one record, for the second row. -/
def c6okrecs : List CorrectionRecord :=
  [mkCorrectionRecord c6okrow1 (strOf "Eth1") (strOf "Gi1") c6okrow2]

/-! ## Panel 3: the Duplicate Links Summary (lines 460-589) -/

/-- One row of the Duplicate Links Summary table. -/
structure SummaryRow where
  linkName : Str
  linkIds : Str
  source : Str
  sourcePort : Option Str
  destination : Str
  destinationPort : Option Str
  toBeRemoved : Str
deriving DecidableEq

/-- Decimal digits of a natural number. -/
def natToStr (n : Nat) : Str := Nat.toDigits 10 n

/-- Embedding of `df['Link ID'] = "Row " + (df.index + 1).astype(str)` (lines 479-481):
when the dataset has no `Link ID` column every row receives a synthesized id
from its 1-based position; otherwise rows keep their ids. -/
def assign_link_ids (hasLinkIdCol : Bool) (df : List Row) : List Row :=
  if hasLinkIdCol then df
  else (tagFrom 0 df).map fun t =>
    { t.2 with linkId := some (strOf "Row " ++ natToStr (t.1 + 1)) }

/-- Embedding of `df[df.duplicated(subset=['Normalized'], keep=False)]` (line 491): the
rows whose key occurs more than once, in dataset order. -/
def all_duplicates (df : List Row) : List Row :=
  df.filter fun r => 1 < (df.filter fun r2 => rowKey r2 = rowKey r).length

/-- Python `', '.join(parts)`. -/
def joinCommaSpace : List Str → Str
  | [] => []
  | [p] => p
  | p :: ps => p ++ strOf ", " ++ joinCommaSpace ps

/-- The summary row for the group of key `k` (lines 507-529): names and ports
come from the group's first row; `Link IDs` joins all ids; the kept row is
the group's first row in original dataset order (`duplicated(keep='first')`
on the unsorted dataset, lines 487-494 and 513-515); `To Be Removed` joins
every Link ID different from the kept row's id, or is `None`. -/
def summary_row_for_key (dups : List Row) (k : Key) : SummaryRow :=
  match dups.filter (fun r => rowKey r = k) with
  | [] => ⟨[], [], [], none, [], none, []⟩
  | first :: rest =>
    let ids := (first :: rest).map fun r => r.linkId
    let rem := ids.filter fun i => i ≠ first.linkId
    { linkName := linkNameOf first.source first.destination
      linkIds := joinCommaSpace (ids.map pdStr)
      source := first.source
      sourcePort := first.sourcePort
      destination := first.destination
      destinationPort := first.destinationPort
      toBeRemoved := if rem.isEmpty then strOf "None" else joinCommaSpace (rem.map pdStr) }

/-- Embedding of the `summary_data` construction (lines 486-529): one summary
row per duplicate LinkGroup, the groups iterated in ascending key order. -/
def summary_data (df : List Row) : List SummaryRow :=
  (sortKeysAsc ((all_duplicates df).map rowKey).dedup).map
    (summary_row_for_key (all_duplicates df))

/-- C3 failing input, first row: ports `Gi0/1` and `Gi0/2`, Total Priority 2. -/
def c3row1 : Row :=
  ⟨strOf "R1", some (strOf "Gi0/1"), strOf "R2", some (strOf "Gi0/2"), none⟩

/-- C3 failing input, second row: ports `Eth1/1` and `Eth1/2`, Total
Priority 6. -/
def c3row2 : Row :=
  ⟨strOf "R1", some (strOf "Eth1/1"), strOf "R2", some (strOf "Eth1/2"), none⟩

/-- The C3 failing dataset after Link ID assignment: one LinkGroup of two
rows, `Row 1` with priority 2 and `Row 2` with priority 6. -/
def c3df : List Row := assign_link_ids false [c3row1, c3row2]

/-! ## Column canonicalization and the validation boundary (C9) -/

/-- Split on runs of whitespace, keeping empty pieces for now. -/
def splitWs : Str → List Str
  | [] => [[]]
  | c :: cs =>
    let rest := splitWs cs
    if isSpaceChar c then [] :: rest
    else
      match rest with
      | [] => [[c]]
      | p :: ps => (c :: p) :: ps

/-- Python `' '.join(parts)`. -/
def joinSpace : List Str → Str
  | [] => []
  | [p] => p
  | p :: ps => p ++ ' ' :: joinSpace ps

/-- Python `' '.join(key.split())` (line 36): collapse internal whitespace. -/
def collapseWs (s : Str) : Str := joinSpace ((splitWs s).filter fun p => p ≠ [])

/-- Python `.replace('_', ' ').replace('-', ' ')` (line 35). -/
def replaceUndHyph (s : Str) : Str := s.map fun c => if c = '_' ∨ c = '-' then ' ' else c

/-- The normalized header key of a column name (lines 35-36). -/
def headerKey (c : Str) : Str := collapseWs (replaceUndHyph (pyLower (pyStrip c)))

/-- Embedding of `canonicalize_columns` (lines 31-47) on the column names:
recognized synonyms become the canonical name, every other name is stripped. -/
def canonicalize_columns (cols : List Str) : List Str :=
  cols.map fun c =>
    let key := headerKey c
    if key = strOf "source" ∨ key = strOf "src" then strOf "Source"
    else if key = strOf "source port" ∨ key = strOf "src port"
        ∨ key = strOf "sourceport" ∨ key = strOf "srcport" then strOf "Source Port"
    else if key = strOf "destination" ∨ key = strOf "dest" then strOf "Destination"
    else if key = strOf "destination port" ∨ key = strOf "dest port"
        ∨ key = strOf "destinationport" ∨ key = strOf "destport" then strOf "Destination Port"
    else pyStrip c

/-- The required columns (lines 238, 376, 474). -/
def required_cols : List Str :=
  [strOf "Source", strOf "Source Port", strOf "Destination", strOf "Destination Port"]

/-- Embedding of `[c for c in required_cols if c not in df.columns]` after canonicalization
(lines 240, 377, 475). -/
def missing_cols (cols : List Str) : List Str :=
  required_cols.filter fun c => c ∉ canonicalize_columns cols

/-- A tabular dataset: its raw column names and its rows. -/
structure DataFrame where
  cols : List Str
  rows : List Row

/-- Output of Panel 1 (Main Link Analysis): the analysis records together
with the result of the correction loop, which is an error when that loop
raised. -/
structure Panel1Output where
  analysis : List AnalysisRecord
  corrections : Except Str (List CorrectionRecord)
deriving DecidableEq

/-- Panel 1 (lines 233-358): canonicalize both datasets and abort, naming the
missing required columns of the first offending dataset (Main checked first,
`st.stop()` on line 243), otherwise run the analyses; `order` is the
iteration order of the key set. -/
def panel1_run (main_db match_db : DataFrame) (order : List Key) :
    Except (Str × List Str) Panel1Output :=
  if missing_cols main_db.cols ≠ [] then
    .error (strOf "Main", missing_cols main_db.cols)
  else if missing_cols match_db.cols ≠ [] then
    .error (strOf "Match", missing_cols match_db.cols)
  else
    .ok ⟨analysis_results main_db.rows match_db.rows order,
         port_corrections (sort_by_normalized main_db.rows)⟩

/-- Panel 2 (lines 360-458): abort naming the missing columns, else produce
the duplicate-port report. -/
def panel2_run (db : DataFrame) : Except (List Str) (List (Row × Bool × Bool)) :=
  if missing_cols db.cols ≠ [] then .error (missing_cols db.cols)
  else .ok (find_duplicate_ports db.rows)

/-- Panel 3 (lines 460-589): abort naming the missing columns, else assign
link ids and produce the cleaned rows, the duplicate rows and the summary. -/
def panel3_run (db : DataFrame) :
    Except (List Str) (List TRow × List TRow × List SummaryRow) :=
  if missing_cols db.cols ≠ [] then .error (missing_cols db.cols)
  else
    let dfid := assign_link_ids (strOf "Link ID" ∈ canonicalize_columns db.cols) db.rows
    .ok ((remove_duplicate_links_with_priority dfid).1,
         (remove_duplicate_links_with_priority dfid).2,
         summary_data dfid)

/-- The C9 witness dataset, lacking both port columns. -/
def c9bad : DataFrame := ⟨[strOf "Source", strOf "Destination"], []⟩

/-- A fully valid dataset for the C9 witness, with synonym headers. -/
def c9good : DataFrame :=
  ⟨[strOf "src", strOf "Source_Port", strOf "dest", strOf "dest port"], []⟩

/-! ## Theorems -/

/- Order facts about `strLt`, needed for the symmetry of `normalize_link`. -/

theorem strLt_asymm : ∀ a b : Str, strLt a b = true → strLt b a = false := by
  intro a
  induction a with
  | nil => intro b _; cases b <;> rfl
  | cons c cs ih =>
    intro b h
    cases b with
    | nil => simp [strLt] at h
    | cons d ds =>
      simp only [strLt] at h ⊢
      rcases lt_trichotomy c d with hcd | hcd | hcd
      · simp [hcd, not_lt_of_lt hcd]
      · subst hcd
        simp only [lt_irrefl, if_false] at h ⊢
        exact ih ds h
      · simp [hcd, not_lt_of_lt hcd] at h

theorem strLt_connex : ∀ a b : Str, a ≠ b → strLt a b = true ∨ strLt b a = true := by
  intro a
  induction a with
  | nil =>
    intro b h
    cases b with
    | nil => exact absurd rfl h
    | cons d ds => left; rfl
  | cons c cs ih =>
    intro b h
    cases b with
    | nil => right; rfl
    | cons d ds =>
      rcases lt_trichotomy c d with hcd | hcd | hcd
      · left; simp [strLt, hcd]
      · subst hcd
        have hne : cs ≠ ds := by intro he; exact h (by rw [he])
        rcases ih ds hne with h1 | h1
        · left; simp [strLt, h1]
        · right; simp [strLt, h1]
      · right; simp [strLt, hcd]

theorem strLe_total_eq (a b : Str) (hab : strLe a b = true) (hba : strLe b a = true) : a = b := by
  by_contra hne
  rcases strLt_connex a b hne with h | h
  · rw [strLe, h] at hba; exact Bool.noConfusion hba
  · rw [strLe, h] at hab; exact Bool.noConfusion hab

theorem strLe_of_not_strLe (a b : Str) (h : strLe a b = false) : strLe b a = true := by
  rw [strLe] at h ⊢
  have hlt : strLt b a = true := by
    cases hba : strLt b a with
    | true => rfl
    | false => rw [hba] at h; exact Bool.noConfusion h
  rw [strLt_asymm b a hlt]
  rfl

/-- C8: the Link Identity Normalizer is symmetric: for all device-name strings
`a` and `b`, `normalize_link a b = normalize_link b a` (src/infralink.py
lines 25-29). -/
theorem C8_normalize_link_symmetric (a b : String) :
    normalize_link (.str a.data) (.str b.data) = normalize_link (.str b.data) (.str a.data) := by
  unfold normalize_link
  set x := extract_match_part (.str (pyStrip (pyStrVal (.str a.data)))) with hx
  set y := extract_match_part (.str (pyStrip (pyStrVal (.str b.data)))) with hy
  cases hxy : strLe x y with
  | false =>
    cases hyx : strLe y x with
    | false =>
      have h := strLe_of_not_strLe x y hxy
      rw [h] at hyx
      exact Bool.noConfusion hyx
    | true => simp [hxy, hyx]
  | true =>
    cases hyx : strLe y x with
    | false => simp [hxy, hyx]
    | true =>
      have h := strLe_total_eq x y hxy hyx
      rw [h]

/-- C7 counterexample: a non-string value whose `str()` representation is
`"A_B"` (for instance an object with that printed form).  The code returns the
representation unchanged, whereas the underscore token rules applied to the
representation give `"B"`: the claim that non-string input is split like any
other name is false of the code. -/
theorem C7_counterexample_nonstring_not_split :
    extract_match_part (.nonstr (strOf "A_B")) ≠
      extract_match_part_str (pyStrVal (.nonstr (strOf "A_B"))) := by decide

/-- C7 amended: for every non-string input the extractor returns the `str()`
representation unchanged; the underscore token rules are not applied to it
(src/infralink.py lines 10-11). -/
theorem C7_nonstring_returns_str_unchanged (r : Str) :
    extract_match_part (.nonstr r) = pyStrVal (.nonstr r) := rfl

/-! ### Permutation and ordering lemmas for the resolver -/

theorem insertDesc_perm (t : TRow) (s : List TRow) :
    (insertDesc t s).Perm (t :: s) := by
  induction s with
  | nil => exact List.Perm.refl _
  | cons u us ih =>
    by_cases h : prioT t < prioT u
    · rw [insertDesc, if_pos h]
      exact ((ih.cons u).trans (List.Perm.swap t u us)).symm.symm
    · rw [insertDesc, if_neg h]

theorem sortDesc_perm (l : List TRow) : (sortDesc l).Perm l := by
  induction l with
  | nil => exact List.Perm.refl _
  | cons t ts ih => exact (insertDesc_perm t (sortDesc ts)).trans (ih.cons t)

theorem mem_tagFrom_ge (n : Nat) (l : List Row) (u : TRow) (hu : u ∈ tagFrom n l) :
    n ≤ u.1 := by
  induction l generalizing n with
  | nil => cases hu
  | cons r rs ih =>
    rcases List.mem_cons.mp hu with h | h
    · subst h; exact Nat.le_refl n
    · exact Nat.le_trans (Nat.le_succ n) (ih (n + 1) h)

theorem tagFrom_pairwise (n : Nat) (l : List Row) :
    (tagFrom n l).Pairwise fun a b => a.1 < b.1 := by
  induction l generalizing n with
  | nil => exact List.Pairwise.nil
  | cons r rs ih =>
    rw [tagFrom, List.pairwise_cons]
    exact ⟨fun u hu => Nat.lt_of_lt_of_le (Nat.lt_succ_self n) (mem_tagFrom_ge (n + 1) rs u hu),
      ih (n + 1)⟩

theorem tagFrom_length (n : Nat) (l : List Row) : (tagFrom n l).length = l.length := by
  induction l generalizing n with
  | nil => rfl
  | cons r rs ih => simp [tagFrom, ih]

theorem dropDup_key_not_seen (seen : List Key) (s : List TRow) (t : TRow)
    (ht : t ∈ dropDupFirst seen s) : keyT t ∉ seen := by
  induction s generalizing seen with
  | nil => cases ht
  | cons v vs ih =>
    by_cases h : keyT v ∈ seen
    · rw [dropDupFirst, if_pos h] at ht
      exact ih seen ht
    · rw [dropDupFirst, if_neg h] at ht
      rcases List.mem_cons.mp ht with he | he
      · subst he; exact h
      · intro hmem
        exact ih (keyT v :: seen) he (List.mem_cons_of_mem _ hmem)

theorem dropDup_subset (seen : List Key) (s : List TRow) (t : TRow)
    (ht : t ∈ dropDupFirst seen s) : t ∈ s := by
  induction s generalizing seen with
  | nil => cases ht
  | cons v vs ih =>
    by_cases h : keyT v ∈ seen
    · rw [dropDupFirst, if_pos h] at ht
      exact List.mem_cons_of_mem _ (ih seen ht)
    · rw [dropDupFirst, if_neg h] at ht
      rcases List.mem_cons.mp ht with he | he
      · subst he; exact List.mem_cons_self _ _
      · exact List.mem_cons_of_mem _ (ih _ he)

theorem dropDup_keepDup_length (seen : List Key) (s : List TRow) :
    (dropDupFirst seen s).length + (keepDupFirst seen s).length = s.length := by
  induction s generalizing seen with
  | nil => rfl
  | cons v vs ih =>
    by_cases h : keyT v ∈ seen
    · rw [dropDupFirst, if_pos h, keepDupFirst, if_pos h]
      simp only [List.length_cons]
      rw [Nat.add_succ, ih seen]
    · rw [dropDupFirst, if_neg h, keepDupFirst, if_neg h]
      simp only [List.length_cons]
      rw [Nat.succ_add, ih (keyT v :: seen)]

theorem dropDup_keepDup_perm (seen : List Key) (s : List TRow) :
    (dropDupFirst seen s ++ keepDupFirst seen s).Perm s := by
  induction s generalizing seen with
  | nil => exact List.Perm.refl _
  | cons v vs ih =>
    by_cases h : keyT v ∈ seen
    · rw [dropDupFirst, if_pos h, keepDupFirst, if_pos h]
      exact List.perm_middle.trans ((ih seen).cons v)
    · rw [dropDupFirst, if_neg h, keepDupFirst, if_neg h, List.cons_append]
      exact (ih (keyT v :: seen)).cons v

theorem dropDup_keys_nodup (seen : List Key) (s : List TRow) :
    ((dropDupFirst seen s).map keyT).Nodup := by
  induction s generalizing seen with
  | nil => exact List.Pairwise.nil
  | cons v vs ih =>
    by_cases h : keyT v ∈ seen
    · rw [dropDupFirst, if_pos h]
      exact ih seen
    · rw [dropDupFirst, if_neg h, List.map_cons, List.nodup_cons]
      constructor
      · intro hmem
        rcases List.mem_map.mp hmem with ⟨u, hu, hku⟩
        exact dropDup_key_not_seen _ _ u hu (hku ▸ List.mem_cons_self _ _)
      · exact ih (keyT v :: seen)

theorem dropDup_keys_mem (seen : List Key) (s : List TRow) (k : Key) (hk : k ∉ seen) :
    k ∈ (dropDupFirst seen s).map keyT ↔ k ∈ s.map keyT := by
  induction s generalizing seen with
  | nil => simp [dropDupFirst]
  | cons v vs ih =>
    by_cases h : keyT v ∈ seen
    · rw [dropDupFirst, if_pos h, List.map_cons, List.mem_cons]
      have hne : k ≠ keyT v := fun he => hk (he ▸ h)
      rw [ih seen hk]
      exact ⟨Or.inr, fun hmem => hmem.resolve_left hne⟩
    · rw [dropDupFirst, if_neg h, List.map_cons, List.map_cons, List.mem_cons, List.mem_cons]
      by_cases hkv : k = keyT v
      · exact ⟨fun _ => Or.inl hkv, fun _ => Or.inl hkv⟩
      · have hk2 : k ∉ keyT v :: seen := by
          intro hmem
          rcases List.mem_cons.mp hmem with he | he
          · exact hkv he
          · exact hk he
        rw [ih (keyT v :: seen) hk2]

/-- The row that `drop_duplicates(keep='first')` keeps for a key is the first
row with that key, so in a list that is pairwise ordered by a relation every
other row of the key stands in that relation to it. -/
theorem dropDup_first_spec (rel : TRow → TRow → Prop) (s : List TRow)
    (hp : s.Pairwise rel) (seen : List Key) (t : TRow)
    (ht : t ∈ dropDupFirst seen s) :
    ∀ u ∈ s, keyT u = keyT t → u = t ∨ rel t u := by
  induction s generalizing seen with
  | nil => cases ht
  | cons v vs ih =>
    rw [List.pairwise_cons] at hp
    by_cases h : keyT v ∈ seen
    · rw [dropDupFirst, if_pos h] at ht
      intro u hu hku
      rcases List.mem_cons.mp hu with he | he
      · subst he
        exact absurd (hku ▸ h) (dropDup_key_not_seen seen vs t ht)
      · exact ih hp.2 seen ht u he hku
    · rw [dropDupFirst, if_neg h] at ht
      rcases List.mem_cons.mp ht with he | he
      · subst he
        intro u hu hku
        rcases List.mem_cons.mp hu with he2 | he2
        · exact Or.inl he2
        · exact Or.inr (hp.1 u he2)
      · have hne : keyT t ≠ keyT v := by
          intro hkv
          exact dropDup_key_not_seen _ _ t he (hkv ▸ List.mem_cons_self _ _)
        intro u hu hku
        rcases List.mem_cons.mp hu with he2 | he2
        · subst he2; exact absurd hku hne.symm
        · exact ih hp.2 (keyT v :: seen) he u he2 hku

/-- C2: the Directional Duplicate Resolver partitions the input: the cleaned
and duplicate sets total the input length, together they are a permutation of
the (position-tagged) input rows, they are disjoint, cleaned has pairwise
distinct link keys, and the keys of cleaned are exactly the keys of the
input (src/infralink.py lines 98-117). -/
theorem C2_resolver_partition (df : List Row) :
    (remove_duplicate_links_with_priority df).1.length
        + (remove_duplicate_links_with_priority df).2.length = df.length
    ∧ ((remove_duplicate_links_with_priority df).1
        ++ (remove_duplicate_links_with_priority df).2).Perm (tagFrom 0 df)
    ∧ (∀ t ∈ (remove_duplicate_links_with_priority df).1,
        t ∉ (remove_duplicate_links_with_priority df).2)
    ∧ ((remove_duplicate_links_with_priority df).1.map keyT).Nodup
    ∧ (∀ k, k ∈ (tagFrom 0 df).map keyT ↔
        k ∈ (remove_duplicate_links_with_priority df).1.map keyT) := by
  have hsp : (sortDesc (tagFrom 0 df)).Perm (tagFrom 0 df) := sortDesc_perm _
  have hperm : ((remove_duplicate_links_with_priority df).1
      ++ (remove_duplicate_links_with_priority df).2).Perm (tagFrom 0 df) :=
    (dropDup_keepDup_perm [] (sortDesc (tagFrom 0 df))).trans hsp
  refine ⟨?_, hperm, ?_, dropDup_keys_nodup [] _, ?_⟩
  · show (dropDupFirst [] (sortDesc (tagFrom 0 df))).length
        + (keepDupFirst [] (sortDesc (tagFrom 0 df))).length = df.length
    rw [dropDup_keepDup_length [] (sortDesc (tagFrom 0 df)), hsp.length_eq,
      tagFrom_length]
  · have hnd : (tagFrom 0 df).Nodup :=
      (tagFrom_pairwise 0 df).imp fun h => by
        intro he
        rw [he] at h
        exact Nat.lt_irrefl _ h
    have hnd2 := hperm.symm.nodup hnd
    rw [List.nodup_append] at hnd2
    intro t ht hmem
    exact hnd2.2.2 ht hmem
  · intro k
    show k ∈ (tagFrom 0 df).map keyT
        ↔ k ∈ (dropDupFirst [] (sortDesc (tagFrom 0 df))).map keyT
    rw [dropDup_keys_mem [] (sortDesc (tagFrom 0 df)) k (List.not_mem_nil k)]
    constructor
    · intro hmem
      exact ((hsp.map keyT).mem_iff.mpr hmem)
    · intro hmem
      exact ((hsp.map keyT).mem_iff.mp hmem)

/-- Sanity: `remove_duplicate_links_with_priority` is the sorted split at
the one permutation that `sortDesc` produces. -/
theorem remove_duplicate_eq_sorted_split (df : List Row) :
    remove_duplicate_links_with_priority df
      = remove_duplicates_sorted (sortDesc (tagFrom 0 df)) := rfl

/-- C1 counterexample: both rows of the tie dataset belong to one LinkGroup
and share the maximal Total Priority; `c1tiesort` is an order that the
unstable descending sort (pandas default quicksort, line 109) may produce,
and under it the kept row is the row at position 1, not the row at the
earlier position 0 — the stable tie-break asserted by the claim is not a
guarantee of the program. -/
theorem C1_counterexample_tie_not_earliest :
    SortsByPriorityDesc c1tiedf c1tiesort
    ∧ 2 ≤ (link_group c1tiedf (rowKey c1tieA)).length
    ∧ (remove_duplicates_sorted c1tiesort).1 = [(1, c1tieB)]
    ∧ keyT (1, c1tieB) = rowKey c1tieA
    ∧ (0, c1tieA) ∈ link_group c1tiedf (rowKey c1tieA)
    ∧ prioT (0, c1tieA) = prioT (1, c1tieB)
    ∧ ¬ (1, c1tieB).1 ≤ (0, c1tieA).1 := by
  refine ⟨⟨by decide, by decide⟩, by decide, by decide, by decide, by decide,
    by decide, by decide⟩

/-- C1 amended: for every order the unstable priority sort may produce, the
row the Directional Duplicate Resolver keeps for a LinkGroup with at least
two members is a member of that group of maximal Total Priority; which of
several maximal-priority ties is kept depends on the unspecified tie order
(src/infralink.py lines 98-117). -/
theorem C1_kept_row_has_max_priority (df : List Row) (s : List TRow)
    (hs : SortsByPriorityDesc df s) (k : Key) (t : TRow)
    (hmem : t ∈ (remove_duplicates_sorted s).1) (hk : keyT t = k)
    (_hgroup : 2 ≤ (link_group df k).length) :
    t ∈ link_group df k ∧ ∀ u ∈ link_group df k, prioT u ≤ prioT t := by
  have hmem2 : t ∈ dropDupFirst [] s := hmem
  have hts : t ∈ s := dropDup_subset [] s t hmem2
  have htag : t ∈ tagFrom 0 df := hs.1.mem_iff.mp hts
  have hspec := dropDup_first_spec _ s hs.2 [] t hmem2
  refine ⟨List.mem_filter.mpr ⟨htag, decide_eq_true hk⟩, ?_⟩
  intro u hu
  rw [link_group, List.mem_filter] at hu
  have hku : keyT u = keyT t := by
    rw [hk]
    exact of_decide_eq_true hu.2
  rcases hspec u (hs.1.mem_iff.mpr hu.1) hku with he | hr
  · exact he ▸ Nat.le_refl _
  · exact hr

/-- Witness for the amended C1: on the dataset with Total Priority values
3, 1, 2 and the concrete descending order that `sortDesc` produces, the kept
row is the first one, of maximal priority 3. -/
theorem C1_witness :
    SortsByPriorityDesc c1df (sortDesc (tagFrom 0 c1df))
    ∧ (0, c1row1) ∈ (remove_duplicates_sorted (sortDesc (tagFrom 0 c1df))).1
    ∧ keyT (0, c1row1) = rowKey c1row1
    ∧ 2 ≤ (link_group c1df (rowKey c1row1)).length
    ∧ ((0, c1row1) ∈ link_group c1df (rowKey c1row1)
       ∧ ∀ u ∈ link_group c1df (rowKey c1row1), prioT u ≤ prioT (0, c1row1)) :=
  ⟨⟨by decide, by decide⟩, by decide, by decide, by decide,
    C1_kept_row_has_max_priority c1df (sortDesc (tagFrom 0 c1df))
      ⟨by decide, by decide⟩ (rowKey c1row1) (0, c1row1)
      (by decide) (by decide) (by decide)⟩

theorem insertAscKey_perm (r : Row) (s : List Row) :
    (insertAscKey r s).Perm (r :: s) := by
  induction s with
  | nil => exact List.Perm.refl _
  | cons u us ih =>
    by_cases h : keyLt (rowKey u) (rowKey r) = true
    · rw [insertAscKey, if_pos h]
      exact (ih.cons u).trans (List.Perm.swap r u us)
    · rw [insertAscKey, if_neg h]

theorem sort_by_normalized_perm (l : List Row) : (sort_by_normalized l).Perm l := by
  induction l with
  | nil => exact List.Perm.refl _
  | cons r rs ih => exact (insertAscKey_perm r (sort_by_normalized rs)).trans (ih.cons r)

/-- C10: the Duplicate Port Detector identifies rows only by the composite
string `device + "_" + port`: the duplicate flag of a row is a function of
that concatenation, and on the concrete dataset with rows `("A_B", "C")` and
`("A", "B_C")` — different (device, port) pairs with the same concatenation —
both rows are flagged as source-port duplicates (src/infralink.py
lines 84-96). -/
theorem C10_flag_depends_only_on_concatenation (df : List Row) (r1 r2 : Row)
    (h : sourcePortKey r1 = sourcePortKey r2) :
    source_port_duplicate df r1 = source_port_duplicate df r2
    ∧ find_duplicate_ports c10df = [(c10rowA, true, false), (c10rowB, true, false)]
    ∧ (c10rowA.source, c10rowA.sourcePort) ≠ (c10rowB.source, c10rowB.sourcePort) := by
  refine ⟨?_, by decide, by decide⟩
  rw [source_port_duplicate, source_port_duplicate, h]

/-- Witness for C10, at the colliding dataset: the two rows have equal
composite source keys, their flags coincide, the detector flags both, and
their (device, port) pairs differ. -/
theorem C10_witness :
    sourcePortKey c10rowA = sourcePortKey c10rowB
    ∧ (source_port_duplicate c10df c10rowA = source_port_duplicate c10df c10rowB
       ∧ find_duplicate_ports c10df = [(c10rowA, true, false), (c10rowB, true, false)]
       ∧ (c10rowA.source, c10rowA.sourcePort) ≠ (c10rowB.source, c10rowB.sourcePort)) :=
  ⟨by decide, C10_flag_depends_only_on_concatenation c10df c10rowA c10rowB (by decide)⟩

theorem analysis_for_key_mem (mainS match_df : List Row) (k : Key)
    (rec : AnalysisRecord) (hrec : rec ∈ analysis_for_key mainS match_df k) :
    rec.normalizedLink = k
    ∧ rec.matchStatus =
        (if k ∈ (sort_by_normalized match_df).map rowKey then strOf "Found"
         else strOf "Missing") := by
  rw [analysis_for_key] at hrec
  cases hf : mainS.filter (fun r => rowKey r = k) with
  | nil => rw [hf] at hrec; cases hrec
  | cons original rest =>
    rw [hf] at hrec
    rcases List.mem_cons.mp hrec with he | he
    · subst he; exact ⟨rfl, rfl⟩
    · cases he

theorem analysis_for_key_of_mem (mainS match_df : List Row) (k : Key)
    (hk : k ∈ mainS.map rowKey) :
    (analysis_for_key mainS match_df k).length = 1
    ∧ (analysis_for_key mainS match_df k).map (fun rec => rec.normalizedLink) = [k] := by
  rcases List.mem_map.mp hk with ⟨r, hr, hkr⟩
  have hfil : r ∈ mainS.filter (fun r2 => rowKey r2 = k) :=
    List.mem_filter.mpr ⟨hr, decide_eq_true hkr⟩
  rw [analysis_for_key]
  cases hf : mainS.filter (fun r2 => rowKey r2 = k) with
  | nil => rw [hf] at hfil; cases hfil
  | cons original rest => exact ⟨rfl, rfl⟩

theorem analysis_flatMap_count (mainS match_df : List Row) (ks : List Key) (k : Key)
    (hnd : ks.Nodup) (hkor : k ∈ ks) (hk : k ∈ mainS.map rowKey) :
    ((ks.flatMap (analysis_for_key mainS match_df)).filter
        (fun rec => rec.normalizedLink = k)).length = 1 := by
  induction ks with
  | nil => cases hkor
  | cons k2 ks2 ih =>
    rw [List.nodup_cons] at hnd
    rw [List.flatMap_cons, List.filter_append, List.length_append]
    by_cases he : k2 = k
    · subst he
      have h1 : (analysis_for_key mainS match_df k2).filter
          (fun rec => rec.normalizedLink = k2) = analysis_for_key mainS match_df k2 :=
        List.filter_eq_self.mpr fun rec hrec =>
          decide_eq_true (analysis_for_key_mem mainS match_df k2 rec hrec).1
      have h2 : (ks2.flatMap (analysis_for_key mainS match_df)).filter
          (fun rec => rec.normalizedLink = k2) = [] := by
        rw [List.filter_eq_nil_iff]
        intro rec hrec
        rcases List.mem_flatMap.mp hrec with ⟨k3, hk3, hrk⟩
        have hk3eq := (analysis_for_key_mem mainS match_df k3 rec hrk).1
        intro hdec
        have h4 : rec.normalizedLink = k2 := of_decide_eq_true hdec
        have he2 : k3 = k2 := hk3eq.symm.trans h4
        exact hnd.1 (he2 ▸ hk3)
      rw [h1, h2, (analysis_for_key_of_mem mainS match_df k2 hk).1]
      rfl
    · have hkks : k ∈ ks2 := (List.mem_cons.mp hkor).resolve_left fun h => he h.symm
      have h1 : (analysis_for_key mainS match_df k2).filter
          (fun rec => rec.normalizedLink = k) = [] := by
        rw [List.filter_eq_nil_iff]
        intro rec hrec hdec
        have hk2eq := (analysis_for_key_mem mainS match_df k2 rec hrec).1
        have : rec.normalizedLink = k := of_decide_eq_true hdec
        exact he (hk2eq.symm.trans this)
      rw [h1, ih hnd.2 hkks]
      rfl

/-- C4: for a valid set-iteration order, every distinct LinkKey of the main
dataset produces exactly one Main Analysis record, and that record's Match
Status is `Missing` exactly when the key is absent from the match dataset's
key set, `Found` otherwise (src/infralink.py lines 251-321). -/
theorem C4_one_record_per_key_with_status (main_df match_df : List Row)
    (order : List Key) (hord : ValidOrder main_df order) (k : Key)
    (hk : k ∈ main_df.map rowKey) :
    ((analysis_results main_df match_df order).filter
        (fun rec => rec.normalizedLink = k)).length = 1
    ∧ ∀ rec ∈ analysis_results main_df match_df order, rec.normalizedLink = k →
        rec.matchStatus =
          (if k ∈ match_df.map rowKey then strOf "Found" else strOf "Missing") := by
  have hmm : k ∈ (sort_by_normalized main_df).map rowKey :=
    ((sort_by_normalized_perm main_df).map rowKey).mem_iff.mpr hk
  have hms : (k ∈ (sort_by_normalized match_df).map rowKey) ↔ (k ∈ match_df.map rowKey) :=
    ((sort_by_normalized_perm match_df).map rowKey).mem_iff
  constructor
  · exact analysis_flatMap_count (sort_by_normalized main_df) match_df order k
      (hord.symm.nodup (List.nodup_dedup _)) (hord.mem_iff.mpr (List.mem_dedup.mpr hk)) hmm
  · intro rec hrec hkrec
    rcases List.mem_flatMap.mp hrec with ⟨k2, _hk2, hrk⟩
    rcases analysis_for_key_mem (sort_by_normalized main_df) match_df k2 rec hrk
      with ⟨hkey, hstat⟩
    have hke : k2 = k := hkey ▸ hkrec
    subst hke
    rw [hstat]
    by_cases hin : k2 ∈ match_df.map rowKey
    · rw [if_pos (hms.mpr hin), if_pos hin]
    · rw [if_neg (fun hc => hin (hms.mp hc)), if_neg hin]

/-- Witness for C4: a one-row main dataset, an empty match dataset, and the
singleton iteration order; the key yields exactly one record and it is
`Missing`. -/
theorem C4_witness :
    ValidOrder [c4row] [rowKey c4row]
    ∧ rowKey c4row ∈ [c4row].map rowKey
    ∧ (((analysis_results [c4row] [] [rowKey c4row]).filter
          (fun rec => rec.normalizedLink = rowKey c4row)).length = 1
       ∧ ∀ rec ∈ analysis_results [c4row] [] [rowKey c4row],
           rec.normalizedLink = rowKey c4row →
           rec.matchStatus =
             (if rowKey c4row ∈ ([] : List Row).map rowKey then strOf "Found"
              else strOf "Missing")) :=
  ⟨by decide, by decide,
    C4_one_record_per_key_with_status [c4row] [] [rowKey c4row] (by decide)
      (rowKey c4row) (by decide)⟩

/-- C5 counterexample: the records of the Main Analysis follow the iteration
order of the Python set of keys, which need not be ascending even though the
dataset was pre-sorted by key: for the two-row dataset and the valid set
order that lists the larger key first, the output keys are not in ascending
order (src/infralink.py lines 251-321, loop over `all_links`). -/
theorem C5_counterexample_unsorted_output :
    ValidOrder c5main c5order
    ∧ keysSortedAsc ((analysis_results c5main [] c5order).map
        (fun rec => rec.normalizedLink)) = false := by
  constructor
  · decide
  · decide

theorem analysis_map_keys (mainS match_df : List Row) (ks : List Key)
    (hmem : ∀ k ∈ ks, k ∈ mainS.map rowKey) :
    ((ks.flatMap (analysis_for_key mainS match_df)).map
        (fun rec => rec.normalizedLink)) = ks := by
  induction ks with
  | nil => rfl
  | cons k ks2 ih =>
    rw [List.flatMap_cons, List.map_append,
      (analysis_for_key_of_mem mainS match_df k (hmem k (List.mem_cons_self _ _))).2,
      ih fun k2 hk2 => hmem k2 (List.mem_cons_of_mem _ hk2)]
    rfl

/-- C5 amended: the Main Analysis emits exactly one record per distinct
LinkKey of the main dataset, in the iteration order of the Python key set —
an order the program does not constrain; pre-sorting the dataset by key does
not make the output key-sorted (src/infralink.py lines 246-321). -/
theorem C5_amended_output_in_set_order (main_df match_df : List Row)
    (order : List Key) (hord : ValidOrder main_df order) :
    (analysis_results main_df match_df order).map (fun rec => rec.normalizedLink)
      = order := by
  apply analysis_map_keys
  intro k hk
  exact ((sort_by_normalized_perm main_df).map rowKey).mem_iff.mpr
    (List.mem_dedup.mp (hord.mem_iff.mp hk))

/-- Witness for the amended C5: on the concrete two-row dataset and concrete
valid order, the output keys equal the order. -/
theorem C5_amended_witness :
    ValidOrder c5main c5order
    ∧ (analysis_results c5main [] c5order).map (fun rec => rec.normalizedLink)
        = c5order :=
  ⟨by decide, C5_amended_output_in_set_order c5main [] c5order (by decide)⟩

theorem insertKeyAsc_perm (k : Key) (s : List Key) :
    (insertKeyAsc k s).Perm (k :: s) := by
  induction s with
  | nil => exact List.Perm.refl _
  | cons u us ih =>
    by_cases h : keyLt u k = true
    · rw [insertKeyAsc, if_pos h]
      exact (ih.cons u).trans (List.Perm.swap k u us)
    · rw [insertKeyAsc, if_neg h]

theorem sortKeysAsc_perm (l : List Key) : (sortKeysAsc l).Perm l := by
  induction l with
  | nil => exact List.Perm.refl _
  | cons k ks ih => exact (insertKeyAsc_perm k (sortKeysAsc ks)).trans (ih.cons k)

theorem link_group_length_eq (df : List Row) (k : Key) :
    (link_group df k).length = (df.filter (fun r => rowKey r = k)).length := by
  rw [link_group]
  have h : ∀ (n : Nat) (l : List Row),
      ((tagFrom n l).filter (fun t => keyT t = k)).length
        = (l.filter (fun r => rowKey r = k)).length := by
    intro n l
    induction l generalizing n with
    | nil => rfl
    | cons r rs ih =>
      rw [tagFrom, List.filter_cons, List.filter_cons]
      have hk : (decide (keyT (n, r) = k)) = (decide (rowKey r = k)) := rfl
      rw [hk]
      by_cases hr : rowKey r = k
      · rw [if_pos (decide_eq_true hr), if_pos (decide_eq_true hr)]
        simp only [List.length_cons, ih]
      · have hd : decide (rowKey r = k) = false := decide_eq_false hr
        rw [hd]
        simp only [Bool.false_eq_true, if_false]
        exact ih (n + 1)
  exact h 0 df

/-- Membership in the record list of one run of the correction loop over a
key list, characterised group by group. -/
theorem port_go_mem (s : List Row) (ks : List Key) (recs : List CorrectionRecord)
    (hok : port_corrections_go s ks = .ok recs) (rec : CorrectionRecord) :
    rec ∈ recs ↔
      ∃ k ∈ ks, 1 < (s.filter fun r => rowKey r = k).length
        ∧ ∃ cs cd, renderCorrE (corrected_raw s k).1 = .ok cs
            ∧ renderCorrE (corrected_raw s k).2 = .ok cd
            ∧ rec ∈ ((s.filter fun r => rowKey r = k).filterMap fun r =>
                if pyStrip (pdStr r.sourcePort) ≠ cs
                    ∨ pyStrip (pdStr r.destinationPort) ≠ cd
                then some (mkCorrectionRecord (group_sample s k) cs cd r)
                else none) := by
  induction ks generalizing recs with
  | nil =>
    rw [port_corrections_go] at hok
    have he : ([] : List CorrectionRecord) = recs := Except.ok.inj hok
    subst he
    simp
  | cons k ks ih =>
    rw [port_corrections_go] at hok
    by_cases hlen : 1 < (s.filter fun r => rowKey r = k).length
    · rw [if_pos hlen] at hok
      cases h1 : renderCorrE (corrected_raw s k).1 with
      | error e => rw [h1] at hok; cases hok
      | ok cs =>
        rw [h1] at hok
        cases h2 : renderCorrE (corrected_raw s k).2 with
        | error e => rw [h2] at hok; cases hok
        | ok cd =>
          rw [h2] at hok
          cases h3 : port_corrections_go s ks with
          | error e => rw [h3] at hok; cases hok
          | ok rest =>
            rw [h3] at hok
            have he := Except.ok.inj hok
            subst he
            rw [List.mem_append]
            constructor
            · rintro (hg | hr)
              · exact ⟨k, List.mem_cons_self _ _, hlen, cs, cd, h1, h2, hg⟩
              · rcases (ih rest h3).mp hr with ⟨k2, hk2, hrest⟩
                exact ⟨k2, List.mem_cons_of_mem _ hk2, hrest⟩
            · rintro ⟨k2, hk2, hlen2, cs2, cd2, h12, h22, hmem2⟩
              rcases List.mem_cons.mp hk2 with he2 | he2
              · subst he2
                rw [h1] at h12
                rw [h2] at h22
                have hcs : cs2 = cs := (Except.ok.inj h12).symm
                have hcd : cd2 = cd := (Except.ok.inj h22).symm
                subst hcs
                subst hcd
                exact Or.inl hmem2
              · exact Or.inr ((ih rest h3).mpr ⟨k2, he2, hlen2, cs2, cd2, h12, h22, hmem2⟩)
    · rw [if_neg hlen] at hok
      rw [ih recs hok]
      constructor
      · rintro ⟨k2, hk2, hrest⟩
        exact ⟨k2, List.mem_cons_of_mem _ hk2, hrest⟩
      · rintro ⟨k2, hk2, hlen2, hrest⟩
        rcases List.mem_cons.mp hk2 with he2 | he2
        · subst he2; exact absurd hlen2 hlen
        · exact ⟨k2, he2, hlen2, hrest⟩

/-- C6 counterexample: the duplicated LinkGroup of `c6nadf` has absent
source-port cells, so its corrected source port is an absent cell; the
truthiness test of line 277 then raises `TypeError` and the whole analysis
aborts with no correction records, although the rows' trimmed literal ports
differ from the `"N/A"` the claim says an absent corrected value renders as
(src/infralink.py lines 258-294). -/
theorem C6_counterexample_absent_corrected_aborts :
    SortsByKeyAsc c6nadf c6nadf
    ∧ 2 ≤ (link_group c6nadf (rowKey c6narow1)).length
    ∧ pyStrip (pdStr c6narow1.sourcePort) ≠ strOf "N/A"
    ∧ port_corrections c6nadf
        = .error (strOf "boolean value of NA is ambiguous") := by
  refine ⟨⟨by decide, by decide⟩, by decide, by decide, by decide⟩

/-- C6 amended: whenever the Port Correction Analyzer completes without
raising — over any order the unstable key sort may produce — it emits a
record exactly for each row of a multi-row LinkGroup whose trimmed literal
ports differ from the group's rendered corrected pair; single-row groups
never produce records, and an absent corrected port cell instead aborts the
whole analysis (src/infralink.py lines 258-294). -/
theorem C6_correction_record_iff (main_df s : List Row) (hs : SortsByKeyAsc main_df s)
    (recs : List CorrectionRecord) (hok : port_corrections s = .ok recs)
    (rec : CorrectionRecord) :
    rec ∈ recs ↔
      ∃ r ∈ main_df, 2 ≤ (link_group main_df (rowKey r)).length
        ∧ ∃ cs cd, renderCorrE (corrected_raw s (rowKey r)).1 = .ok cs
            ∧ renderCorrE (corrected_raw s (rowKey r)).2 = .ok cd
            ∧ (pyStrip (pdStr r.sourcePort) ≠ cs
               ∨ pyStrip (pdStr r.destinationPort) ≠ cd)
            ∧ rec = mkCorrectionRecord (group_sample s (rowKey r)) cs cd r := by
  rw [port_corrections] at hok
  rw [port_go_mem s _ recs hok rec]
  constructor
  · rintro ⟨k, _hk, hlen, cs, cd, h1, h2, hmem⟩
    rcases List.mem_filterMap.mp hmem with ⟨r, hrfil, hif⟩
    rcases List.mem_filter.mp hrfil with ⟨hrs, hrk⟩
    have hrk2 : rowKey r = k := of_decide_eq_true hrk
    subst hrk2
    have hcond : pyStrip (pdStr r.sourcePort) ≠ cs
        ∨ pyStrip (pdStr r.destinationPort) ≠ cd := by
      by_contra hc
      rw [if_neg hc] at hif
      cases hif
    rw [if_pos hcond] at hif
    refine ⟨r, hs.1.mem_iff.mp hrs, ?_, cs, cd, h1, h2, hcond,
      (Option.some_inj.mp hif).symm⟩
    rw [link_group_length_eq]
    rw [← (hs.1.filter fun r2 => rowKey r2 = rowKey r).length_eq]
    exact hlen
  · rintro ⟨r, hr, hlen, cs, cd, h1, h2, hcond, hrec⟩
    refine ⟨rowKey r, ?_, ?_, cs, cd, h1, h2, ?_⟩
    · apply (sortKeysAsc_perm _).mem_iff.mpr
      apply List.mem_dedup.mpr
      exact List.mem_map.mpr ⟨r, hs.1.mem_iff.mpr hr, rfl⟩
    · rw [(hs.1.filter fun r2 => rowKey r2 = rowKey r).length_eq,
        ← link_group_length_eq]
      exact hlen
    · apply List.mem_filterMap.mpr
      refine ⟨r, List.mem_filter.mpr ⟨hs.1.mem_iff.mpr hr, decide_eq_true rfl⟩, ?_⟩
      rw [if_pos hcond, hrec]

/-- Witness for the amended C6: on the two-row witness dataset (already in
ascending key order) the analyzer succeeds with exactly one record, and the
iff instance holds for that record. -/
theorem C6_witness :
    SortsByKeyAsc c6okdf c6okdf
    ∧ port_corrections c6okdf = .ok c6okrecs
    ∧ (mkCorrectionRecord c6okrow1 (strOf "Eth1") (strOf "Gi1") c6okrow2 ∈ c6okrecs ↔
        ∃ r ∈ c6okdf, 2 ≤ (link_group c6okdf (rowKey r)).length
          ∧ ∃ cs cd, renderCorrE (corrected_raw c6okdf (rowKey r)).1 = .ok cs
              ∧ renderCorrE (corrected_raw c6okdf (rowKey r)).2 = .ok cd
              ∧ (pyStrip (pdStr r.sourcePort) ≠ cs
                 ∨ pyStrip (pdStr r.destinationPort) ≠ cd)
              ∧ mkCorrectionRecord c6okrow1 (strOf "Eth1") (strOf "Gi1") c6okrow2
                  = mkCorrectionRecord (group_sample c6okdf (rowKey r)) cs cd r) := by
  have hok : port_corrections c6okdf = .ok c6okrecs := by decide
  exact ⟨⟨by decide, by decide⟩, hok,
    C6_correction_record_iff c6okdf c6okdf ⟨by decide, by decide⟩ c6okrecs hok
      (mkCorrectionRecord c6okrow1 (strOf "Eth1") (strOf "Gi1") c6okrow2)⟩

/-- C3: divergence between the Duplicate Links Summary and the priority rule.
On `c3df` the Directional Duplicate Resolver keeps `Row 2` (Total Priority 6)
and removes `Row 1`, yet the summary's `To Be Removed` lists exactly
`Row 2`: the summary marks for removal every id other than the group's first
row in original order, not the non-kept rows of the priority rule
(src/infralink.py lines 487-529, contradicting the comment on line 512). -/
theorem C3_summary_contradicts_priority_rule :
    (summary_data c3df).map (fun s => s.toBeRemoved) = [strOf "Row 2"]
    ∧ (remove_duplicate_links_with_priority c3df).1
        = [(1, { c3row2 with linkId := some (strOf "Row 2") })]
    ∧ (remove_duplicate_links_with_priority c3df).2
        = [(0, { c3row1 with linkId := some (strOf "Row 1") })] := by
  refine ⟨by decide, by decide, by decide⟩

/-- C9: when a dataset lacks required columns after canonicalization, every
analysis operation on it aborts with exactly the names of its missing
columns and produces no analysis output (src/infralink.py lines 238-243,
376-379, 474-477). -/
theorem C9_missing_columns_abort (db other : DataFrame) (order : List Key)
    (h : missing_cols db.cols ≠ []) :
    panel1_run db other order = .error (strOf "Main", missing_cols db.cols)
    ∧ (missing_cols other.cols = [] →
        panel1_run other db order = .error (strOf "Match", missing_cols db.cols))
    ∧ panel2_run db = .error (missing_cols db.cols)
    ∧ panel3_run db = .error (missing_cols db.cols) := by
  refine ⟨?_, ?_, ?_, ?_⟩
  · rw [panel1_run, if_pos h]
  · intro h2
    rw [panel1_run, if_neg (fun hc => hc h2), if_pos h]
  · rw [panel2_run, if_pos h]
  · rw [panel3_run, if_pos h]

/-- Witness for C9: the bad dataset misses exactly the two port columns and
each panel aborts with those names, in either upload position of Panel 1. -/
theorem C9_witness :
    missing_cols c9bad.cols = [strOf "Source Port", strOf "Destination Port"]
    ∧ (panel1_run c9bad c9good [] = .error (strOf "Main", missing_cols c9bad.cols)
       ∧ (missing_cols c9good.cols = [] →
           panel1_run c9good c9bad [] = .error (strOf "Match", missing_cols c9bad.cols))
       ∧ panel2_run c9bad = .error (missing_cols c9bad.cols)
       ∧ panel3_run c9bad = .error (missing_cols c9bad.cols)) :=
  ⟨by decide, C9_missing_columns_abort c9bad c9good [] (by decide)⟩

end InfraLink
